import Mathlib

/-!
Verification of the generational incremental-backup engine in
`scripts/vmware2oci/esxi-backup.py`.

The Python source is shallowly embedded: pure helpers become Lean
functions, the stateful backup operation becomes explicit state passing
over an environment record that fixes the outcome of each external
effect (remote command, SFTP download, local file system), and Python
exceptions become an explicit `Exc` result type.  All definitions are
translated from the source file; line numbers in the comments refer to
`src/scripts/vmware2oci/esxi-backup.py`.
-/

/-! ## Calendar model for `datetime.strptime(name, "%Y%m%d_%H%M%S")`

`apply_retention` (line 641) parses backup directory names with
`datetime.strptime`.  We model the proleptic Gregorian calendar used by
Python's `datetime`: `weekdayOf` matches `datetime.weekday()`
(Monday = 0, Sunday = 6).  `parseTimestamp` models `strptime` on the
canonical fixed-width 15-character names the tool itself generates
(line 428): 8 digits, an underscore, 6 digits, with the field ranges
that `datetime` validates; any other string raises `ValueError`, which
we model as `none`.
-/

def isLeap (y : Nat) : Bool :=
  (y % 4 == 0 && !(y % 100 == 0)) || y % 400 == 0

def daysInMonth (y m : Nat) : Nat :=
  if m == 2 then (if isLeap y then 29 else 28)
  else if m == 4 || m == 6 || m == 9 || m == 11 then 30
  else 31

def daysBeforeMonthAux (y : Nat) : Nat → Nat
  | 0 => 0
  | k + 1 => daysBeforeMonthAux y k + daysInMonth y (k + 1)

/-- Days in year `y` that precede the first day of month `m`. -/
def daysBeforeMonth (y m : Nat) : Nat := daysBeforeMonthAux y (m - 1)

structure DateTime where
  year : Nat
  month : Nat
  day : Nat
  hour : Nat
  minute : Nat
  second : Nat
  deriving DecidableEq

/-- `date.toordinal()`: day count from 0001-01-01 (which is day 1). -/
def toOrdinal (t : DateTime) : Nat :=
  365 * (t.year - 1) + (t.year - 1) / 4 - (t.year - 1) / 100 + (t.year - 1) / 400
    + daysBeforeMonth t.year t.month + t.day

/-- `datetime.weekday()`: Monday = 0 .. Sunday = 6. -/
def weekdayOf (t : DateTime) : Nat := (toOrdinal t + 6) % 7

def digitVal (c : Char) : Nat := c.toNat - 48

/-- `datetime.strptime(s, "%Y%m%d_%H%M%S")` on canonical names,
`none` models the `ValueError` branch caught at line 642. -/
def parseTimestamp (s : String) : Option DateTime :=
  match s.data with
  | [y1, y2, y3, y4, m1, m2, d1, d2, u, h1, h2, n1, n2, s1, s2] =>
    if (y1.isDigit && y2.isDigit && y3.isDigit && y4.isDigit &&
        m1.isDigit && m2.isDigit && d1.isDigit && d2.isDigit &&
        u == '_' &&
        h1.isDigit && h2.isDigit && n1.isDigit && n2.isDigit &&
        s1.isDigit && s2.isDigit) then
      let y := 1000 * digitVal y1 + 100 * digitVal y2 + 10 * digitVal y3 + digitVal y4
      let mo := 10 * digitVal m1 + digitVal m2
      let d := 10 * digitVal d1 + digitVal d2
      let h := 10 * digitVal h1 + digitVal h2
      let n := 10 * digitVal n1 + digitVal n2
      let sec := 10 * digitVal s1 + digitVal s2
      if 1 ≤ y && 1 ≤ mo && mo ≤ 12 && 1 ≤ d && d ≤ daysInMonth y mo &&
         h ≤ 23 && n ≤ 59 && sec ≤ 59 then
        some ⟨y, mo, d, h, n, sec⟩
      else none
    else none
  | _ => none

/-! ## Sorting directory listings

Both `_get_latest_backup` (line 556) and `apply_retention` (line 629)
use `sorted(vm_dir.iterdir(), reverse=True)`, i.e. they walk the
directory entries in name-descending order.  We model it with an
insertion sort parameterised by a strict Boolean order. -/

def insertDescBy (lt : α → α → Bool) (x : α) : List α → List α
  | [] => [x]
  | y :: ys => if lt y x then x :: y :: ys else y :: insertDescBy lt x ys

def sortDescBy (lt : α → α → Bool) (l : List α) : List α :=
  l.foldr (insertDescBy lt) []

/-- Boolean check that a list is already strictly descending. -/
def sortedDescB (lt : α → α → Bool) : List α → Bool
  | [] => true
  | [_] => true
  | x :: y :: r => lt y x && sortedDescB lt (y :: r)

/-- Python's string `<`: lexicographic comparison by code point.
`sorted(...)` on the directory entries uses it. -/
def strLtData : List Char → List Char → Bool
  | [], [] => false
  | [], _ :: _ => true
  | _ :: _, [] => false
  | a :: as, b :: bs =>
    if a.toNat < b.toNat then true
    else if b.toNat < a.toNat then false
    else strLtData as bs

def strLt (a b : String) : Bool := strLtData a.data b.data

/-! ## Retention engine (`BackupEngine.apply_retention`, lines 616-664) -/

structure RetentionConfig where
  keep_daily : Nat
  keep_weekly : Nat
  keep_monthly : Nat

/-- The walk state of lines 634-637: the `keep` set and the three tier
counters.  The keep set is represented as a duplicate-free list. -/
structure RetState where
  keep : List String
  daily : Nat
  weekly : Nat
  monthly : Nat
  deriving DecidableEq

/-- `keep.add(backup_dir)`: set insertion. -/
def keepAdd (ks : List String) (b : String) : List String :=
  if ks.contains b then ks else ks ++ [b]

/-- Lines 646-648: the daily tier keeps unconditionally. -/
def dailyTier (cfg : RetentionConfig) (b : String) (st : RetState) : RetState :=
  if st.daily < cfg.keep_daily then
    { st with keep := keepAdd st.keep b, daily := st.daily + 1 }
  else st

/-- Lines 651-653: the weekly tier keeps Sunday backups. -/
def weeklyTier (cfg : RetentionConfig) (ts : DateTime) (b : String) (st : RetState) :
    RetState :=
  if weekdayOf ts = 6 ∧ st.weekly < cfg.keep_weekly then
    { st with keep := keepAdd st.keep b, weekly := st.weekly + 1 }
  else st

/-- Lines 656-658: the monthly tier keeps first-of-month backups. -/
def monthlyTier (cfg : RetentionConfig) (ts : DateTime) (b : String) (st : RetState) :
    RetState :=
  if ts.day = 1 ∧ st.monthly < cfg.keep_monthly then
    { st with keep := keepAdd st.keep b, monthly := st.monthly + 1 }
  else st

/-- One iteration of the loop at lines 639-658 over a directory name:
an unparsable name is skipped (`continue` at line 643), a parsable one
runs the three independent tier checks in order. -/
def retentionStep (cfg : RetentionConfig) (st : RetState) (b : String) : RetState :=
  match parseTimestamp b with
  | none => st
  | some ts => monthlyTier cfg ts b (weeklyTier cfg ts b (dailyTier cfg b st))

/-- The full walk over the (already sorted) directory names. -/
def retentionWalk (cfg : RetentionConfig) (names : List String) : RetState :=
  names.foldl (retentionStep cfg) ⟨[], 0, 0, 0⟩

/-- The keep set produced for one machine directory (`raw` is the raw
listing; the engine sorts it name-descending first, line 629). -/
def retentionKeep (cfg : RetentionConfig) (raw : List String) : List String :=
  (retentionWalk cfg (sortDescBy strLt raw)).keep

/-- The entries removed by the loop at lines 661-664
(`shutil.rmtree` on every entry not in the keep set). -/
def retentionDeleted (cfg : RetentionConfig) (raw : List String) : List String :=
  (sortDescBy strLt raw).filter (fun b => !((retentionKeep cfg raw).contains b))

/-- The entries that survive the prune. -/
def retentionSurvivors (cfg : RetentionConfig) (raw : List String) : List String :=
  (sortDescBy strLt raw).filter (fun b => (retentionKeep cfg raw).contains b)

/-! ## Backup metadata and its JSON document
(`BackupMetadata` dataclass, lines 117-126; written at lines 481-484 by
`json.dump(metadata.__dict__, ...)`; read back at lines 560-562 by
`BackupMetadata(**json.load(f))`). -/

structure BackupMetadata where
  timestamp : String
  vm_name : String
  vmx_path : String
  disks : List (String × String)
  cbt_used : Bool
  change_id : String
  parent_backup : String
  size_bytes : Nat
  deriving DecidableEq

/-- A JSON document, the external format of `backup.json`. -/
inductive JValue where
  | jstr (s : String)
  | jnum (n : Int)
  | jbool (b : Bool)
  | jarr (xs : List JValue)
  | jobj (fields : List (String × JValue))

/-- One element of the `disks` list as written at line 460:
the dict with keys `path` and `local`. -/
def diskToJson (d : String × String) : JValue :=
  .jobj [("path", .jstr d.1), ("local", .jstr d.2)]

def parseDiskEntry : JValue → Option (String × String)
  | .jobj [("path", .jstr p), ("local", .jstr l)] => some (p, l)
  | _ => none

def parseDisks : List JValue → Option (List (String × String))
  | [] => some []
  | j :: js =>
    match parseDiskEntry j, parseDisks js with
    | some d, some ds => some (d :: ds)
    | _, _ => none

def jLookup : List (String × JValue) → String → Option JValue
  | [], _ => none
  | (k, v) :: fs, key => if k == key then some v else jLookup fs key

def asStr : Option JValue → Option String
  | some (.jstr s) => some s
  | _ => none

def asBool : Option JValue → Option Bool
  | some (.jbool b) => some b
  | _ => none

def asNum : Option JValue → Option Int
  | some (.jnum n) => some n
  | _ => none

def asArr : Option JValue → Option (List JValue)
  | some (.jarr xs) => some xs
  | _ => none

/-- `json.dump(metadata.__dict__, f)` at line 484: the document holds
the eight dataclass fields in declaration order. -/
def toJsonMetadata (m : BackupMetadata) : JValue :=
  .jobj [("timestamp", .jstr m.timestamp),
         ("vm_name", .jstr m.vm_name),
         ("vmx_path", .jstr m.vmx_path),
         ("disks", .jarr (m.disks.map diskToJson)),
         ("cbt_used", .jbool m.cbt_used),
         ("change_id", .jstr m.change_id),
         ("parent_backup", .jstr m.parent_backup),
         ("size_bytes", .jnum (Int.ofNat m.size_bytes))]

/-- `BackupMetadata(**json.load(f))` at line 562 applied to a record
document: field lookup by key; a document that does not carry the
expected fields makes the Python call raise, modelled as `none`. -/
def fromJsonMetadata : JValue → Option BackupMetadata
  | .jobj fs =>
    match asStr (jLookup fs "timestamp"), asStr (jLookup fs "vm_name"),
          asStr (jLookup fs "vmx_path"), asArr (jLookup fs "disks"),
          asBool (jLookup fs "cbt_used"), asStr (jLookup fs "change_id"),
          asStr (jLookup fs "parent_backup"), asNum (jLookup fs "size_bytes") with
    | some t, some vn, some vp, some ds, some cu, some ci, some pb, some sb =>
      match sb with
      | .negSucc _ => none
      | .ofNat n =>
        match parseDisks ds with
        | some dl => some ⟨t, vn, vp, dl, cu, ci, pb, n⟩
        | none => none
    | _, _, _, _, _, _, _, _ => none
  | _ => none

/-! ## Backup record store (`BackupEngine._get_latest_backup`, lines 550-563) -/

/-- Result of a Python call: normal value or raised exception. -/
inductive Exc (α : Type) where
  | ok (a : α)
  | exn
  deriving DecidableEq

/-- State of `backup_dir / "backup.json"` inside one backup entry:
the file may be absent, present but not a well-formed JSON document
(`json.load` raises), or a JSON document. -/
inductive FileContent where
  | absent
  | malformed
  | record (j : JValue)

def entryLt (a b : String × FileContent) : Bool := strLt a.1 b.1

/-- The scan loop at lines 557-563 over the sorted entries: entries
without `backup.json` are skipped; at the first entry that has one the
function returns `BackupMetadata(**json.load(f))`, whose failure
(malformed text or wrong field set) propagates as an exception. -/
def scanBackups : List (String × FileContent) → Exc (Option BackupMetadata)
  | [] => .ok none
  | (_, .absent) :: rest => scanBackups rest
  | (_, .malformed) :: _ => .exn
  | (_, .record j) :: _ =>
    match fromJsonMetadata j with
    | some m => .ok (some m)
    | none => .exn

/-- `_get_latest_backup`: sort the machine directory name-descending,
then scan (lines 556-563). -/
def latestRecord (entries : List (String × FileContent)) : Exc (Option BackupMetadata) :=
  scanBackups (sortDescBy entryLt entries)

/-! ## Backup engine (`BackupEngine.backup_vm`, lines 421-491 and
`_backup_disk`, lines 493-527) -/

/-- Local file system: file path to size in bytes. -/
abbrev FS := List (String × Nat)

def fsGet (fs : FS) (p : String) : Option Nat :=
  (fs.find? (fun e => e.1 == p)).map (fun e => e.2)

/-- State of path `p` after a transfer attempt: `some n` means the file
now exists with `n` bytes, `none` means it does not exist. -/
def fsSet (fs : FS) (p : String) : Option Nat → FS
  | some n => (p, n) :: fs.filter (fun e => !(e.1 == p))
  | none => fs.filter (fun e => !(e.1 == p))

/-- `Path(path).name`: the component after the last slash. -/
def basename (s : String) : String :=
  ⟨(s.data.reverse.takeWhile (fun c => !(c == '/'))).reverse⟩

/-- `path.replace(".vmdk", "-flat.vmdk")` (lines 511, 520, 522). -/
def vmdkFlatData : List Char → List Char
  | '.' :: 'v' :: 'm' :: 'd' :: 'k' :: rest => "-flat.vmdk".data ++ vmdkFlatData rest
  | c :: rest => c :: vmdkFlatData rest
  | [] => []

def vmdkFlat (s : String) : String := ⟨vmdkFlatData s.data⟩

structure DiskInfo where
  path : String
  deriving DecidableEq

structure VMInfo where
  vmid : Nat
  name : String
  vmx_path : String
  power_state : String
  deriving DecidableEq

/-- Outcomes of the external effects one `backup_vm` call performs.
`download r l` is `_download_with_progress`: `.exn` models a raised
SFTP error, `.ok v` models completion leaving the destination `l` in
state `v`.  `rmTemp` is the `rm -f` of line 511 (run with check=True,
so it can raise).  `createOk` / `removeOk` are the snapshot bracket. -/
structure BackupEnv where
  createOk : Bool
  removeOk : Bool
  getDisks : Exc (List DiskInfo)
  remoteExists : String → Bool
  download : String → String → Exc (Option Nat)
  rmTemp : String → Exc Unit
  vmxDownload : Exc Nat
  changeId : String
  writeMeta : Exc Unit

/-- The transfer part of `BackupEngine._backup_disk` (lines 502-523):
for an incremental backup, clone on the host (`vmkfstools`, run with
check=False so it cannot raise) and download the clone when the host
reports it, falling back to a direct copy of the source disk;
for a full backup, copy the disk directly and also fetch the companion
`-flat.vmdk` file when the host has one.  The result is the local file
system after the transfers. -/
def backupDiskTransfer (env : BackupEnv) (fs : FS) (dir : String)
    (incremental : Bool) (disk : DiskInfo) : Exc FS :=
  let diskName := basename disk.path
  let localPath := dir ++ "/" ++ diskName
  if incremental then
    let tempPath := "/tmp/backup_" ++ diskName
    if env.remoteExists tempPath then
      match env.download tempPath localPath with
      | .exn => .exn
      | .ok r =>
        match env.rmTemp tempPath with
        | .exn => .exn
        | .ok _ => .ok (fsSet fs localPath r)
    else
      match env.download disk.path localPath with
      | .exn => .exn
      | .ok r => .ok (fsSet fs localPath r)
  else
    match env.download disk.path localPath with
    | .exn => .exn
    | .ok r =>
      let fs1 := fsSet fs localPath r
      let flatRemote := vmdkFlat disk.path
      if env.remoteExists flatRemote then
        match env.download flatRemote (vmdkFlat localPath) with
        | .exn => .exn
        | .ok r2 => .ok (fsSet fs1 (vmdkFlat localPath) r2)
      else .ok fs1

/-- `BackupEngine._backup_disk` (lines 493-527).  After the transfer,
the function returns `local_path` exactly when `local_path.exists()`
(line 525) — the only acceptance check the code performs — and `None`
otherwise. -/
def backupDisk (env : BackupEnv) (fs : FS) (dir : String) (incremental : Bool)
    (disk : DiskInfo) : Exc (FS × Option String) :=
  match backupDiskTransfer env fs dir incremental disk with
  | .exn => .exn
  | .ok fs1 =>
    .ok (fs1, if (fsGet fs1 (dir ++ "/" ++ basename disk.path)).isSome
      then some (dir ++ "/" ++ basename disk.path) else none)

/-- The per-disk loop of lines 455-462: a successful copy appends
`(disk.path, local)` and adds `local_path.stat().st_size`; a copy that
returned `None` is silently skipped; a raised exception aborts. -/
def diskLoop (env : BackupEnv) (dir : String) (incremental : Bool) :
    FS → List DiskInfo → Exc (FS × List (String × String) × Nat)
  | fs, [] => .ok (fs, [], 0)
  | fs, d :: ds =>
    match backupDisk env fs dir incremental d with
    | .exn => .exn
    | .ok (fs1, some lp) =>
      match diskLoop env dir incremental fs1 ds with
      | .exn => .exn
      | .ok (fs2, lst, tot) =>
        .ok (fs2, (d.path, lp) :: lst, (fsGet fs1 lp).getD 0 + tot)
    | .ok (fs1, none) => diskLoop env dir incremental fs1 ds

def backupDirOf (dest vmName ts : String) : String :=
  dest ++ "/" ++ vmName ++ "/" ++ ts

/-- The body of the try block at lines 447-487: get the disk list,
copy each disk, download the VMX file, build the metadata record and
write it.  `latest` is the value `_get_latest_backup` returned; lines
433-434 compute `parent_backup = latest if not full else None` and
`is_incremental = parent is not None and use_cbt`, which appear inline
below. -/
def backupBody (env : BackupEnv) (vm : VMInfo) (dir ts : String)
    (full useCbt : Bool) (latest : Option BackupMetadata) (fs : FS) :
    Exc BackupMetadata :=
  match env.getDisks with
  | .exn => .exn
  | .ok disks =>
    match diskLoop env dir ((if full then none else latest).isSome && useCbt) fs disks with
    | .exn => .exn
    | .ok (_, backedUp, total) =>
      match env.vmxDownload with
      | .exn => .exn
      | .ok _ =>
        match env.writeMeta with
        | .exn => .exn
        | .ok _ =>
          .ok { timestamp := ts, vm_name := vm.name, vmx_path := vm.vmx_path,
                disks := backedUp,
                cbt_used := (if full then none else latest).isSome && useCbt,
                change_id := env.changeId,
                parent_backup :=
                  match (if full then none else latest : Option BackupMetadata) with
                  | some p => p.timestamp
                  | none => "",
                size_bytes := total }

/-- Observable outcome of one `backup_vm` call. -/
structure BackupRun where
  result : Option BackupMetadata
  raised : Bool
  removeInvoked : Bool
  snapCount : Nat
  deriving DecidableEq

/-- `BackupEngine.backup_vm` (lines 421-491).  `snap0` is the number of
snapshots the machine has on entry.  Snapshot creation failure returns
`None` before the try block; otherwise the body runs and
`remove_snapshot` is invoked in the finally block (line 491) on both
the normal and the exceptional exit; a successful removal takes the
bracketing snapshot away again. -/
def backupVM (env : BackupEnv) (vm : VMInfo) (dest ts : String)
    (full useCbt : Bool) (latest : Option BackupMetadata) (fs : FS)
    (snap0 : Nat) : BackupRun :=
  if env.createOk then
    match backupBody env vm (backupDirOf dest vm.name ts) ts full useCbt latest fs with
    | .ok m =>
      { result := some m, raised := false, removeInvoked := true,
        snapCount := if env.removeOk then (snap0 + 1) - 1 else snap0 + 1 }
    | .exn =>
      { result := none, raised := true, removeInvoked := true,
        snapCount := if env.removeOk then (snap0 + 1) - 1 else snap0 + 1 }
  else
    { result := none, raised := false, removeInvoked := false, snapCount := snap0 }

/-- The per-machine entry of the `backup_all` summary (lines 593-614):
`(vm.name, True, metadata.size_bytes)` when `backup_vm` returned a
record, `(vm.name, False, 0)` when it returned `None` or raised. -/
def summaryEntry (name : String) (run : BackupRun) : String × Bool × Nat :=
  match run.result with
  | some m => (name, true, m.size_bytes)
  | none => (name, false, 0)

/-! ## Snapshot removal (`VMManager.remove_snapshot`, lines 367-395) -/

def digitsTake : List Char → List Char
  | c :: cs => if c.isDigit then c :: digitsTake cs else []
  | [] => []

/-- `re.search(r": (\d+)", line)`: the leftmost occurrence of a colon,
a space and at least one digit; the captured group is the maximal digit
run. -/
def searchColonDigits : List Char → Option (List Char)
  | [] => none
  | c :: cs =>
    match c, cs with
    | ':', ' ' :: d :: ds =>
      if d.isDigit then some (d :: digitsTake ds) else searchColonDigits cs
    | _, _ => searchColonDigits cs

def listInfix (p : List Char) : List Char → Bool
  | [] => p.isEmpty
  | c :: cs => p.isPrefixOf (c :: cs) || listInfix p cs

def idMarker : List Char := "--Snapshot Id".data

def nameMarker (snapshotName : String) : List Char :=
  ("--Snapshot Name   : " ++ snapshotName).data

/-- A listing line from which the loop can extract a snapshot id:
it contains `--Snapshot Id` and the id regex matches. -/
def isSnapshotIdLine (l : List Char) : Bool :=
  listInfix idMarker l && (searchColonDigits l).isSome

/-- The loop at lines 377-386: skip the line naming the requested
snapshot, otherwise take the first id that parses. -/
def findSnapshotId (snapshotName : String) : List (List Char) → Option (List Char)
  | [] => none
  | l :: ls =>
    if listInfix (nameMarker snapshotName) l then findSnapshotId snapshotName ls
    else if listInfix idMarker l then
      match searchColonDigits l with
      | some d => some d
      | none => findSnapshotId snapshotName ls
    else findSnapshotId snapshotName ls

inductive SnapshotRemoval where
  | removeId (id : List Char)
  | removeAll
  deriving DecidableEq

/-- The command issued at lines 387-395: `snapshot.remove <id>` when an
id was found, `snapshot.removeall` otherwise. -/
def removeSnapshotAction (snapshotName : String) (lines : List (List Char)) :
    SnapshotRemoval :=
  match findSnapshotId snapshotName lines with
  | some d => .removeId d
  | none => .removeAll

/-! ## Helper lemmas -/

theorem contains_iff_mem (l : List String) (x : String) :
    l.contains x = true ↔ x ∈ l := by
  simp [List.contains, List.elem_iff]

theorem mem_insertDescBy {α : Type} (lt : α → α → Bool) (y : α) (l : List α) (x : α) :
    x ∈ insertDescBy lt y l ↔ x = y ∨ x ∈ l := by
  induction l with
  | nil => simp [insertDescBy]
  | cons z zs ih =>
    simp only [insertDescBy]
    split
    · simp
    · simp only [List.mem_cons, ih]
      tauto

theorem sortDescBy_cons {α : Type} (lt : α → α → Bool) (z : α) (zs : List α) :
    sortDescBy lt (z :: zs) = insertDescBy lt z (sortDescBy lt zs) := rfl

theorem mem_sortDescBy {α : Type} (lt : α → α → Bool) (l : List α) (x : α) :
    x ∈ sortDescBy lt l ↔ x ∈ l := by
  induction l with
  | nil => simp [sortDescBy]
  | cons z zs ih =>
    rw [sortDescBy_cons, mem_insertDescBy]
    simp [ih]

theorem sortDescBy_of_sorted {α : Type} (lt : α → α → Bool) (l : List α)
    (h : sortedDescB lt l = true) : sortDescBy lt l = l := by
  induction l with
  | nil => rfl
  | cons x xs ih =>
    cases xs with
    | nil => rfl
    | cons y r =>
      simp only [sortedDescB, Bool.and_eq_true] at h
      rw [sortDescBy_cons, ih h.2]
      simp [insertDescBy, h.1]

theorem foldr_insert_max {α : Type} (lt : α → α → Bool) (x : α) (l : List α)
    (hasym : ∀ a b, lt a b = true → lt b a = false)
    (h : ∀ f ∈ l, lt f x = true) :
    List.foldr (insertDescBy lt) [x] l = x :: sortDescBy lt l := by
  induction l with
  | nil => rfl
  | cons f fs ih =>
    have hf : lt f x = true := h f (by simp)
    have hxf : lt x f = false := hasym f x hf
    rw [List.foldr_cons, ih (fun g hg => h g (by simp [hg])), sortDescBy_cons]
    simp [insertDescBy, hxf]

theorem sortDescBy_append_max {α : Type} (lt : α → α → Bool) (l : List α) (x : α)
    (hasym : ∀ a b, lt a b = true → lt b a = false)
    (h : ∀ f ∈ l, lt f x = true) :
    sortDescBy lt (l ++ [x]) = x :: sortDescBy lt l := by
  unfold sortDescBy
  rw [List.foldr_append]
  exact foldr_insert_max lt x l hasym h

theorem strLtData_asymm :
    ∀ as bs : List Char, strLtData as bs = true → strLtData bs as = false := by
  intro as
  induction as with
  | nil =>
    intro bs h
    cases bs with
    | nil => simp [strLtData] at h
    | cons b bs' => simp [strLtData]
  | cons a as' ih =>
    intro bs h
    cases bs with
    | nil => simp [strLtData] at h
    | cons b bs' =>
      simp only [strLtData] at h ⊢
      by_cases hab : a.toNat < b.toNat
      · rw [if_neg (by omega), if_pos hab]
      · rw [if_neg hab] at h
        by_cases hba : b.toNat < a.toNat
        · rw [if_pos hba] at h
          exact absurd h (by simp)
        · rw [if_neg hba] at h
          rw [if_neg hba, if_neg hab]
          exact ih bs' h

theorem strLt_asymm (a b : String) (h : strLt a b = true) : strLt b a = false :=
  strLtData_asymm a.data b.data h

theorem entryLt_asymm (a b : String × FileContent) (h : entryLt a b = true) :
    entryLt b a = false :=
  strLt_asymm a.1 b.1 h

theorem keepAdd_mem (ks : List String) (b x : String) :
    x ∈ keepAdd ks b ↔ x ∈ ks ∨ x = b := by
  unfold keepAdd
  split
  next hc =>
    have hbmem : b ∈ ks := (contains_iff_mem ks b).mp hc
    constructor
    · exact Or.inl
    · rintro (hx | rfl) <;> assumption
  next => simp [List.mem_append]

theorem dailyTier_keep_sub (cfg : RetentionConfig) (b : String) (st : RetState)
    (x : String) (hx : x ∈ (dailyTier cfg b st).keep) : x ∈ st.keep ∨ x = b := by
  unfold dailyTier at hx
  split at hx
  · exact (keepAdd_mem _ _ _).mp hx
  · exact Or.inl hx

theorem weeklyTier_keep_sub (cfg : RetentionConfig) (ts : DateTime) (b : String)
    (st : RetState) (x : String) (hx : x ∈ (weeklyTier cfg ts b st).keep) :
    x ∈ st.keep ∨ x = b := by
  unfold weeklyTier at hx
  split at hx
  · exact (keepAdd_mem _ _ _).mp hx
  · exact Or.inl hx

theorem monthlyTier_keep_sub (cfg : RetentionConfig) (ts : DateTime) (b : String)
    (st : RetState) (x : String) (hx : x ∈ (monthlyTier cfg ts b st).keep) :
    x ∈ st.keep ∨ x = b := by
  unfold monthlyTier at hx
  split at hx
  · exact (keepAdd_mem _ _ _).mp hx
  · exact Or.inl hx

theorem retentionStep_keep_sub (cfg : RetentionConfig) (st : RetState) (b x : String)
    (hx : x ∈ (retentionStep cfg st b).keep) :
    x ∈ st.keep ∨ (x = b ∧ (parseTimestamp b).isSome = true) := by
  unfold retentionStep at hx
  cases hp : parseTimestamp b with
  | none => rw [hp] at hx; exact Or.inl hx
  | some ts =>
    rw [hp] at hx
    rcases monthlyTier_keep_sub _ _ _ _ _ hx with hx2 | rfl
    · rcases weeklyTier_keep_sub _ _ _ _ _ hx2 with hx3 | rfl
      · rcases dailyTier_keep_sub _ _ _ _ hx3 with hx4 | rfl
        · exact Or.inl hx4
        · exact Or.inr ⟨rfl, by simp [hp]⟩
      · exact Or.inr ⟨rfl, by simp [hp]⟩
    · exact Or.inr ⟨rfl, by simp [hp]⟩

theorem retentionWalk_keep_parsable (cfg : RetentionConfig) (bs : List String) :
    ∀ st : RetState, (∀ x ∈ st.keep, (parseTimestamp x).isSome = true) →
      ∀ x ∈ (bs.foldl (retentionStep cfg) st).keep, (parseTimestamp x).isSome = true := by
  induction bs with
  | nil => intro st h x hx; exact h x hx
  | cons b bs ih =>
    intro st h
    rw [List.foldl_cons]
    apply ih
    intro x hx
    rcases retentionStep_keep_sub cfg st b x hx with h1 | ⟨rfl, hps⟩
    · exact h x h1
    · exact hps

theorem weeklyTier_zero (cfg : RetentionConfig) (hw : cfg.keep_weekly = 0)
    (ts : DateTime) (b : String) (st : RetState) : weeklyTier cfg ts b st = st := by
  unfold weeklyTier
  rw [if_neg]
  rintro ⟨-, hlt⟩
  omega

theorem monthlyTier_zero (cfg : RetentionConfig) (hm : cfg.keep_monthly = 0)
    (ts : DateTime) (b : String) (st : RetState) : monthlyTier cfg ts b st = st := by
  unfold monthlyTier
  rw [if_neg]
  rintro ⟨-, hlt⟩
  omega

theorem walkKeep_daily_mem (k : Nat) (bs : List String) :
    ∀ (ks : List String) (d w mo : Nat),
      (∀ b ∈ bs, (parseTimestamp b).isSome = true) →
      ∀ x, (x ∈ (bs.foldl (retentionStep ⟨k, 0, 0⟩) ⟨ks, d, w, mo⟩).keep ↔
            x ∈ ks ∨ x ∈ bs.take (k - d)) := by
  induction bs with
  | nil => intro ks d w mo hp x; simp
  | cons b bs ih =>
    intro ks d w mo hp x
    obtain ⟨ts, hts⟩ := Option.isSome_iff_exists.mp (hp b (by simp))
    rw [List.foldl_cons]
    have hstep : retentionStep ⟨k, 0, 0⟩ ⟨ks, d, w, mo⟩ b =
        dailyTier ⟨k, 0, 0⟩ b ⟨ks, d, w, mo⟩ := by
      simp only [retentionStep, hts]
      rw [weeklyTier_zero ⟨k, 0, 0⟩ rfl, monthlyTier_zero ⟨k, 0, 0⟩ rfl]
    rw [hstep]
    by_cases hd : d < k
    · have hkd : k - d = (k - (d + 1)) + 1 := by omega
      unfold dailyTier
      rw [if_pos (by simpa using hd)]
      have ihx := ih (keepAdd ks b) (d + 1) w mo (fun g hg => hp g (by simp [hg])) x
      simp only at ihx
      rw [ihx, hkd, List.take_succ_cons, keepAdd_mem]
      simp only [List.mem_cons]
      tauto
    · have hkd : k - d = 0 := by omega
      unfold dailyTier
      rw [if_neg (by simpa using hd)]
      have ihx := ih ks d w mo (fun g hg => hp g (by simp [hg])) x
      simp only at ihx
      rw [ihx, hkd]
      simp

theorem filter_contains_take (l : List String) (n : Nat) (hnd : l.Nodup)
    (ks : List String) (hks : ∀ x, ks.contains x = true ↔ x ∈ l.take n) :
    l.filter (fun b => ks.contains b) = l.take n ∧
    l.filter (fun b => !(ks.contains b)) = l.drop n := by
  have hsplit := List.take_append_drop n l
  have hdisj : List.Disjoint (l.take n) (l.drop n) := by
    rw [← hsplit] at hnd
    exact (List.nodup_append.mp hnd).2.2
  have htake : ∀ x ∈ l.take n, ks.contains x = true := fun x hx => (hks x).mpr hx
  have hdrop : ∀ x ∈ l.drop n, ks.contains x = false := by
    intro x hx
    cases hcase : ks.contains x
    · rfl
    · exact absurd hx (hdisj ((hks x).mp hcase))
  have htakemem : ∀ x ∈ l.take n, x ∈ ks := fun x hx => (contains_iff_mem ks x).mp (htake x hx)
  have hdropmem : ∀ x ∈ l.drop n, x ∉ ks := by
    intro x hx hmem
    have hc := (contains_iff_mem ks x).mpr hmem
    rw [hdrop x hx] at hc
    exact Bool.noConfusion hc
  constructor
  · conv_lhs => rw [← hsplit]
    rw [List.filter_append]
    rw [List.filter_eq_self.mpr htake]
    rw [List.filter_eq_nil_iff.mpr (by intro a ha; simp [hdropmem a ha])]
    simp
  · conv_lhs => rw [← hsplit]
    rw [List.filter_append]
    rw [List.filter_eq_nil_iff.mpr (by intro a ha; simp [htakemem a ha])]
    rw [List.filter_eq_self.mpr (by intro a ha; simp [hdropmem a ha])]
    simp

/-! ## Claims about the retention engine -/

/-- C1, counterexample: a directory entry whose name does not parse as
a `%Y%m%d_%H%M%S` timestamp is skipped by the counting walk, but the
removal loop at lines 661-664 deletes every entry that is not in the
keep set — so the unrecognized entry `garbage` IS deleted, contrary to
the claim that it is left untouched on disk. -/
theorem claim1_counterexample :
    retentionDeleted ⟨1, 0, 0⟩ ["20240102_000000", "garbage"] = ["garbage"] := by
  decide

/-- C1, amended: an entry whose name cannot be parsed is skipped by the
walk — it is neither added to the keep set nor counted toward any tier
(the walk state is untouched) — but precisely because it never enters
the keep set, the removal pass deletes it from disk. -/
theorem claim1_theorem (cfg : RetentionConfig) (raw : List String) (b : String)
    (hb : parseTimestamp b = none) (hmem : b ∈ raw) :
    (∀ st : RetState, retentionStep cfg st b = st) ∧
    b ∈ retentionDeleted cfg raw := by
  constructor
  · intro st
    simp [retentionStep, hb]
  · unfold retentionDeleted
    rw [List.mem_filter]
    refine ⟨(mem_sortDescBy _ _ _).mpr hmem, ?_⟩
    have hnk : b ∉ retentionKeep cfg raw := by
      intro hk
      have hps := retentionWalk_keep_parsable cfg (sortDescBy strLt raw)
        ⟨[], 0, 0, 0⟩ (by intro x hx; exact absurd hx (List.not_mem_nil x)) b hk
      rw [hb] at hps
      exact Bool.noConfusion hps
    have hcf : (retentionKeep cfg raw).contains b = false := by
      cases hcase : (retentionKeep cfg raw).contains b
      · rfl
      · exact absurd ((contains_iff_mem _ _).mp hcase) hnk
    simp only [hcf, Bool.not_false]

/-- C1 witness: instantiation of the amended theorem at the concrete
input of the counterexample. -/
theorem claim1_witness :
    parseTimestamp ("garbage") = none ∧
    ("garbage" ∈ (["20240102_000000", "garbage"] : List String)) ∧
    retentionStep ⟨1, 0, 0⟩ ⟨[], 0, 0, 0⟩ ("garbage") = ⟨[], 0, 0, 0⟩ ∧
    ("garbage" ∈ retentionDeleted ⟨1, 0, 0⟩ ["20240102_000000", "garbage"]) :=
  ⟨by decide, by decide,
   (claim1_theorem ⟨1, 0, 0⟩ ["20240102_000000", "garbage"] ("garbage")
     (by decide) (by decide)).1 ⟨[], 0, 0, 0⟩,
   (claim1_theorem ⟨1, 0, 0⟩ ["20240102_000000", "garbage"] ("garbage")
     (by decide) (by decide)).2⟩

/-- C7: with `keep_daily = 3` and `keep_weekly = keep_monthly = 0`, a
machine directory of ten distinct parsable-timestamp entries (sorted
newest first) retains exactly the three newest entries and deletes the
other seven, regardless of the weekday or day-of-month of any entry. -/
theorem claim7_theorem (raw : List String)
    (hsorted : sortedDescB strLt raw = true)
    (hlen : raw.length = 10)
    (hnd : raw.Nodup)
    (hp : ∀ b ∈ raw, (parseTimestamp b).isSome = true) :
    retentionSurvivors ⟨3, 0, 0⟩ raw = raw.take 3 ∧
    retentionDeleted ⟨3, 0, 0⟩ raw = raw.drop 3 ∧
    (raw.take 3).length = 3 ∧ (raw.drop 3).length = 7 := by
  have hid := sortDescBy_of_sorted strLt raw hsorted
  have hkeep : ∀ x, (retentionKeep ⟨3, 0, 0⟩ raw).contains x = true ↔ x ∈ raw.take 3 := by
    intro x
    rw [contains_iff_mem]
    unfold retentionKeep retentionWalk
    rw [hid]
    have hw := walkKeep_daily_mem 3 raw [] 0 0 0 hp x
    simpa using hw
  have hf := filter_contains_take raw 3 hnd _ hkeep
  refine ⟨?_, ?_, ?_, ?_⟩
  · unfold retentionSurvivors
    rw [hid]
    exact hf.1
  · unfold retentionDeleted
    rw [hid]
    exact hf.2
  · simp [List.length_take, hlen]
  · simp [hlen]

def c7names : List String :=
  ["20240110_080000", "20240109_080000", "20240108_080000", "20240107_080000",
   "20240106_080000", "20240105_080000", "20240104_080000", "20240103_080000",
   "20240102_080000", "20240101_080000"]

/-- C7 witness: ten daily records (ages 0..9 days), `keep_daily = 3`. -/
theorem claim7_witness :
    sortedDescB strLt c7names = true ∧
    c7names.length = 10 ∧
    c7names.Nodup ∧
    (∀ b ∈ c7names, (parseTimestamp b).isSome = true) ∧
    retentionSurvivors ⟨3, 0, 0⟩ c7names = c7names.take 3 ∧
    retentionDeleted ⟨3, 0, 0⟩ c7names = c7names.drop 3 :=
  ⟨by decide, by decide, by decide, by decide,
   (claim7_theorem c7names (by decide) (by decide) (by decide) (by decide)).1,
   (claim7_theorem c7names (by decide) (by decide) (by decide) (by decide)).2.1⟩

/-- C8: a record that is a Sunday (`weekday = 6`) and the first of the
month, while all three quotas are open, is added to the keep set once
(the set grows by exactly one element) yet increments the daily, weekly
and monthly counters independently — tier membership is a union. -/
theorem claim8_theorem (cfg : RetentionConfig) (st : RetState) (b : String)
    (ts : DateTime)
    (hts : parseTimestamp b = some ts)
    (hwd : weekdayOf ts = 6) (hdom : ts.day = 1)
    (hd : st.daily < cfg.keep_daily)
    (hw : st.weekly < cfg.keep_weekly)
    (hmo : st.monthly < cfg.keep_monthly)
    (hnotin : st.keep.contains b = false) :
    retentionStep cfg st b =
      { keep := st.keep ++ [b], daily := st.daily + 1,
        weekly := st.weekly + 1, monthly := st.monthly + 1 } ∧
    (retentionStep cfg st b).keep.length = st.keep.length + 1 := by
  have hstep : retentionStep cfg st b =
      { keep := st.keep ++ [b], daily := st.daily + 1,
        weekly := st.weekly + 1, monthly := st.monthly + 1 } := by
    have hin : (st.keep ++ [b]).contains b = true :=
      (contains_iff_mem _ _).mpr (by simp)
    simp only [retentionStep, hts]
    unfold dailyTier
    rw [if_pos hd]
    unfold keepAdd
    rw [hnotin]
    simp only [Bool.false_eq_true, if_false]
    unfold weeklyTier
    rw [if_pos ⟨hwd, hw⟩]
    unfold keepAdd
    rw [hin]
    simp only [if_true]
    unfold monthlyTier
    rw [if_pos ⟨hdom, hmo⟩]
    unfold keepAdd
    rw [hin]
    simp only [if_true]
  refine ⟨hstep, ?_⟩
  rw [hstep]
  simp

/-- C8 witness: 2023-01-01 is both a Sunday and the first of the month. -/
theorem claim8_witness :
    parseTimestamp ("20230101_120000") = some ⟨2023, 1, 1, 12, 0, 0⟩ ∧
    weekdayOf ⟨2023, 1, 1, 12, 0, 0⟩ = 6 ∧
    retentionStep ⟨1, 1, 1⟩ ⟨[], 0, 0, 0⟩ ("20230101_120000") =
      ⟨["20230101_120000"], 1, 1, 1⟩ :=
  ⟨by decide, by decide,
   (claim8_theorem ⟨1, 1, 1⟩ ⟨[], 0, 0, 0⟩ ("20230101_120000") ⟨2023, 1, 1, 12, 0, 0⟩
     (by decide) (by decide) (by decide) (by decide) (by decide) (by decide)
     (by decide)).1⟩

/-! ## Round trip of the metadata document -/

theorem parseDiskEntry_diskToJson (d : String × String) :
    parseDiskEntry (diskToJson d) = some d := rfl

theorem parseDisks_map (l : List (String × String)) :
    parseDisks (l.map diskToJson) = some l := by
  induction l with
  | nil => rfl
  | cons d ds ih =>
    simp only [List.map_cons, parseDisks, parseDiskEntry_diskToJson, ih]

theorem fromJson_toJson (m : BackupMetadata) :
    fromJsonMetadata (toJsonMetadata m) = some m := by
  obtain ⟨t, vn, vp, dl, cu, ci, pb, sb⟩ := m
  have haux : fromJsonMetadata (toJsonMetadata ⟨t, vn, vp, dl, cu, ci, pb, sb⟩) =
      (match parseDisks (dl.map diskToJson) with
       | some d => some ⟨t, vn, vp, d, cu, ci, pb, sb⟩
       | none => none) := rfl
  rw [haux, parseDisks_map]

/-! ## Claims about the backup record store -/

theorem scanBackups_absent (n : String) (rest : List (String × FileContent)) :
    scanBackups ((n, FileContent.absent) :: rest) = scanBackups rest := rfl

theorem scanBackups_skip_absent (pre : List (String × FileContent))
    (hpre : ∀ e ∈ pre, e.2 = FileContent.absent) (l : List (String × FileContent)) :
    scanBackups (pre ++ l) = scanBackups l := by
  induction pre with
  | nil => rfl
  | cons e pre ih =>
    obtain ⟨en, ec⟩ := e
    have he : ec = FileContent.absent := hpre (en, ec) (by simp)
    subst he
    rw [List.cons_append, scanBackups_absent]
    exact ih (fun f hf => hpre f (by simp [hf]))

def c5mA : BackupMetadata :=
  ⟨"20240101_000000", "vm1", "/vmfs/volumes/d1/vm1/vm1.vmx", [], false, "", "", 0⟩

/-- C5, counterexample: the newest entry has a `backup.json` that is
present but malformed.  The claim says such an entry is skipped
silently and the lookup never fails, returning the older well-formed
record; in the code `json.load` raises and `_get_latest_backup`
propagates the exception, so the lookup fails. -/
theorem claim5_counterexample :
    latestRecord [("20240101_000000", FileContent.record (toJsonMetadata c5mA)),
                  ("20240102_000000", FileContent.malformed)] = .exn := by
  decide

/-- C5, amended: `_get_latest_backup` scans in timestamp-descending
order; entries whose record file is MISSING are skipped silently, and
the first entry that bears a record file decides the result: if the
record is readable and well-formed it is returned, but if it is
malformed the lookup raises instead of skipping it. -/
theorem claim5_theorem (pre rest : List (String × FileContent)) (n : String)
    (c : FileContent)
    (hsorted : sortedDescB entryLt (pre ++ (n, c) :: rest) = true)
    (hpre : ∀ e ∈ pre, e.2 = FileContent.absent)
    (hc : c ≠ FileContent.absent) :
    latestRecord (pre ++ (n, c) :: rest) =
      (match c with
       | .record j =>
         (match fromJsonMetadata j with
          | some m => .ok (some m)
          | none => .exn)
       | _ => .exn) := by
  unfold latestRecord
  rw [sortDescBy_of_sorted entryLt _ hsorted]
  rw [scanBackups_skip_absent pre hpre]
  cases c with
  | absent => exact absurd rfl hc
  | malformed => rfl
  | record j => rfl

def c5mB : BackupMetadata :=
  ⟨"20240102_000000", "vm1", "/vmfs/volumes/d1/vm1/vm1.vmx", [], true, "cid", "", 5⟩

/-- C5 witness: a missing-record entry is skipped, the first
record-bearing entry is returned field-for-field. -/
theorem claim5_witness :
    sortedDescB entryLt
      ([("20240103_000000", FileContent.absent)] ++
        ("20240102_000000", FileContent.record (toJsonMetadata c5mB)) ::
        [("20240101_000000", FileContent.absent)]) = true ∧
    (∀ e ∈ ([("20240103_000000", FileContent.absent)] : List (String × FileContent)),
      e.2 = FileContent.absent) ∧
    latestRecord
      ([("20240103_000000", FileContent.absent)] ++
        ("20240102_000000", FileContent.record (toJsonMetadata c5mB)) ::
        [("20240101_000000", FileContent.absent)]) = .ok (some c5mB) :=
  ⟨by decide, by intro e he; simp at he; rw [he], 
   (claim5_theorem [("20240103_000000", FileContent.absent)]
     [("20240101_000000", FileContent.absent)] ("20240102_000000")
     (FileContent.record (toJsonMetadata c5mB)) (by decide)
     (by intro e he; simp at he; rw [he])
     (by intro h; exact FileContent.noConfusion h)).trans (by decide)⟩

/-- C9: writing a `BackupMetadata` record at the end of a backup (the
`json.dump` of lines 481-484) and reading it back with
`_get_latest_backup` returns a record field-for-field equal to the one
written, whenever the new timestamp sorts after every existing entry
of the machine directory (the always-increasing clock). -/
theorem claim9_theorem (old : List (String × FileContent)) (m : BackupMetadata)
    (hgt : ∀ e ∈ old, strLt e.1 m.timestamp = true) :
    latestRecord (old ++ [(m.timestamp, FileContent.record (toJsonMetadata m))]) =
      .ok (some m) := by
  unfold latestRecord
  rw [sortDescBy_append_max entryLt old
    (m.timestamp, FileContent.record (toJsonMetadata m)) entryLt_asymm
    (fun f hf => hgt f hf)]
  simp only [scanBackups, fromJson_toJson]

def c9m : BackupMetadata :=
  ⟨"20240102_000000", "vm1", "/vmfs/volumes/d1/vm1/vm1.vmx",
   [("/vmfs/volumes/d1/vm1/a.vmdk", "/backups/vm1/20240102_000000/a.vmdk")],
   true, "cid", "20240101_000000", 100⟩

/-- C9 witness: the round trip at a concrete record, over a directory
that also holds an older malformed leftover. -/
theorem claim9_witness :
    (∀ e ∈ ([("20240101_000000", FileContent.malformed)] :
        List (String × FileContent)), strLt e.1 c9m.timestamp = true) ∧
    latestRecord ([("20240101_000000", FileContent.malformed)] ++
      [(c9m.timestamp, FileContent.record (toJsonMetadata c9m))]) = .ok (some c9m) :=
  ⟨by decide, claim9_theorem [("20240101_000000", FileContent.malformed)] c9m (by decide)⟩

/-! ## Claims about the backup engine -/

theorem backupVM_result_some (env : BackupEnv) (vm : VMInfo) (dest ts : String)
    (full useCbt : Bool) (latest : Option BackupMetadata) (fs : FS) (snap0 : Nat)
    (m : BackupMetadata)
    (h : (backupVM env vm dest ts full useCbt latest fs snap0).result = some m) :
    backupBody env vm (backupDirOf dest vm.name ts) ts full useCbt latest fs = .ok m := by
  unfold backupVM at h
  cases hc : env.createOk with
  | false =>
    rw [hc] at h
    simp only [Bool.false_eq_true, if_false] at h
    exact Option.noConfusion h
  | true =>
    rw [hc] at h
    simp only [if_true] at h
    cases hb : backupBody env vm (backupDirOf dest vm.name ts) ts full useCbt latest fs with
    | exn => rw [hb] at h; exact Option.noConfusion h
    | ok m' =>
      rw [hb] at h
      simp only at h
      rw [Option.some_inj.mp h]

theorem backupBody_fields (env : BackupEnv) (vm : VMInfo) (dir ts : String)
    (full useCbt : Bool) (latest : Option BackupMetadata) (fs : FS)
    (m : BackupMetadata)
    (h : backupBody env vm dir ts full useCbt latest fs = .ok m) :
    m.timestamp = ts ∧ m.vm_name = vm.name ∧
    m.cbt_used = ((if full then none else latest : Option BackupMetadata).isSome && useCbt) ∧
    m.parent_backup = (match (if full then none else latest : Option BackupMetadata) with
      | some p => p.timestamp
      | none => "") := by
  unfold backupBody at h
  cases hgd : env.getDisks with
  | exn => rw [hgd] at h; exact Exc.noConfusion h
  | ok disks =>
    rw [hgd] at h
    simp only at h
    cases hdl : diskLoop env dir ((if full then none else latest).isSome && useCbt) fs disks with
    | exn => rw [hdl] at h; exact Exc.noConfusion h
    | ok r =>
      obtain ⟨fs1, backedUp, total⟩ := r
      rw [hdl] at h
      simp only at h
      cases hvx : env.vmxDownload with
      | exn => rw [hvx] at h; exact Exc.noConfusion h
      | ok sz =>
        rw [hvx] at h
        simp only at h
        cases hwm : env.writeMeta with
        | exn => rw [hwm] at h; exact Exc.noConfusion h
        | ok u =>
          rw [hwm] at h
          simp only at h
          obtain rfl : _ = m := Exc.ok.inj h
          exact ⟨rfl, rfl, rfl, rfl⟩

/-- C3: the incremental decision.  With no prior record the produced
backup is full with empty parent; with a prior record, incremental
mode on and full not forced, it is incremental with parent equal to
the prior record's timestamp; with full forced it is full with empty
parent. -/
theorem claim3_theorem (env : BackupEnv) (vm : VMInfo) (dest ts : String)
    (full useCbt : Bool) (latest : Option BackupMetadata) (fs : FS) (snap0 : Nat)
    (m : BackupMetadata)
    (hres : (backupVM env vm dest ts full useCbt latest fs snap0).result = some m) :
    (full = true → m.cbt_used = false ∧ m.parent_backup = "") ∧
    (latest = none → m.cbt_used = false ∧ m.parent_backup = "") ∧
    (∀ p, latest = some p → full = false → useCbt = true →
      m.cbt_used = true ∧ m.parent_backup = p.timestamp) := by
  have hb := backupVM_result_some env vm dest ts full useCbt latest fs snap0 m hres
  obtain ⟨-, -, hcbt, hpar⟩ := backupBody_fields env vm
    (backupDirOf dest vm.name ts) ts full useCbt latest fs m hb
  refine ⟨?_, ?_, ?_⟩
  · rintro rfl
    rw [hcbt, hpar]
    simp
  · rintro rfl
    rw [hcbt, hpar]
    cases full <;> simp
  · rintro p rfl rfl rfl
    rw [hcbt, hpar]
    simp

/-- C4: whenever snapshot creation succeeds, snapshot removal is
invoked on every exit path of `backup_vm` — normal completion or an
exception anywhere in the try block — and, provided the removal
operation itself succeeds, the machine's snapshot count is zero after
the operation just as it was zero before, regardless of success or
failure of the backup. -/
theorem claim4_theorem (env : BackupEnv) (vm : VMInfo) (dest ts : String)
    (full useCbt : Bool) (latest : Option BackupMetadata) (fs : FS)
    (hcreate : env.createOk = true) :
    (backupVM env vm dest ts full useCbt latest fs 0).removeInvoked = true ∧
    (env.removeOk = true →
      (backupVM env vm dest ts full useCbt latest fs 0).snapCount = 0) := by
  unfold backupVM
  rw [hcreate]
  simp only [if_true]
  cases hb : backupBody env vm (backupDirOf dest vm.name ts) ts full useCbt latest fs with
  | ok m =>
    refine ⟨rfl, ?_⟩
    intro hrm
    simp [hrm]
  | exn =>
    refine ⟨rfl, ?_⟩
    intro hrm
    simp [hrm]

def vm1 : VMInfo := ⟨1, "vm1", "/vmfs/volumes/d1/vm1/vm1.vmx", "on"⟩

def priorM : BackupMetadata :=
  ⟨"20240101_000000", "vm1", "/vmfs/volumes/d1/vm1/vm1.vmx", [], false, "", "", 0⟩

def env3 : BackupEnv :=
  { createOk := true, removeOk := true, getDisks := .ok [],
    remoteExists := fun _ => false, download := fun _ _ => .ok (some 1),
    rmTemp := fun _ => .ok (), vmxDownload := .ok 2, changeId := "cid",
    writeMeta := .ok () }

def run3 : BackupRun :=
  backupVM env3 vm1 ("/backups") ("20240102_000000") false true (some priorM) [] 0

def m3 : BackupMetadata :=
  ⟨"20240102_000000", "vm1", "/vmfs/volumes/d1/vm1/vm1.vmx", [], true, "cid",
   "20240101_000000", 0⟩

/-- C3 witness: a machine with a prior record, incremental mode on and
full not forced produces an incremental backup whose parent is the
prior record's timestamp. -/
theorem claim3_witness :
    run3.result = some m3 ∧
    (m3.cbt_used = true ∧ m3.parent_backup = "20240101_000000") :=
  ⟨by decide,
   (claim3_theorem env3 vm1 ("/backups") ("20240102_000000") false true
     (some priorM) [] 0 m3 (by decide)).2.2 priorM rfl rfl rfl⟩

def env4 : BackupEnv :=
  { createOk := true, removeOk := true, getDisks := .exn,
    remoteExists := fun _ => false, download := fun _ _ => .exn,
    rmTemp := fun _ => .exn, vmxDownload := .exn, changeId := "cid",
    writeMeta := .exn }

/-- C4 witness: a run whose body raises while listing the disks still
invokes snapshot removal, and the snapshot count returns to zero. -/
theorem claim4_witness :
    env4.createOk = true ∧ env4.removeOk = true ∧
    (backupVM env4 vm1 ("/backups") ("20240103_000000") false true none [] 0).removeInvoked
      = true ∧
    (backupVM env4 vm1 ("/backups") ("20240103_000000") false true none [] 0).snapCount
      = 0 :=
  ⟨rfl, rfl,
   (claim4_theorem env4 vm1 ("/backups") ("20240103_000000") false true none [] rfl).1,
   (claim4_theorem env4 vm1 ("/backups") ("20240103_000000") false true none [] rfl).2 rfl⟩

def diskA : DiskInfo := ⟨"/vmfs/volumes/d1/vm1/a.vmdk"⟩

def diskB : DiskInfo := ⟨"/vmfs/volumes/d1/vm1/b.vmdk"⟩

def env2 : BackupEnv :=
  { createOk := true, removeOk := true, getDisks := .ok [diskA, diskB],
    remoteExists := fun _ => false,
    download := fun r _ =>
      if r == "/vmfs/volumes/d1/vm1/a.vmdk" then .ok (some 100) else .ok none,
    rmTemp := fun _ => .ok (), vmxDownload := .ok 4, changeId := "cid",
    writeMeta := .ok () }

def run2 : BackupRun :=
  backupVM env2 vm1 ("/backups") ("20240102_000000") true true none [] 0

/-- C2, counterexample: disk A copies (100 bytes), disk B's transfer
leaves no destination file, so `_backup_disk` returns `None` for it.
`backup_vm` still returns a metadata record, so `backup_all` records
the machine as `(vm1, True, 100)` — the success flag is `true`, not
`false` as the claim requires, and the failed disk appears nowhere in
the summary (it is merely absent from the record's disk list). -/
theorem claim2_counterexample :
    summaryEntry ("vm1") run2 = ("vm1", true, 100) ∧
    run2.result = some ⟨"20240102_000000", "vm1", "/vmfs/volumes/d1/vm1/vm1.vmx",
      [("/vmfs/volumes/d1/vm1/a.vmdk", "/backups/vm1/20240102_000000/a.vmdk")],
      false, "cid", "", 100⟩ :=
  ⟨by decide, by decide⟩

/-- C2, amended: when one disk copy fails (missing destination) while
another succeeds, the backup continues — the loop result lists only the
successful disk and the byte total is the sum over successful disks
only — but the machine's summary entry reports `success = true`
whenever a metadata record was produced, and the failed disk is not
listed in the summary. -/
theorem claim2_theorem (env : BackupEnv) (dir : String) (incremental : Bool)
    (fs fsA fsB : FS) (a b : DiskInfo) (dstA : String) (na : Nat)
    (h1 : backupDisk env fs dir incremental a = .ok (fsA, some dstA))
    (hsize : fsGet fsA dstA = some na)
    (h2 : backupDisk env fsA dir incremental b = .ok (fsB, none)) :
    diskLoop env dir incremental fs [a, b] = .ok (fsB, [(a.path, dstA)], na) ∧
    (∀ (name : String) (run : BackupRun) (m : BackupMetadata),
      run.result = some m → summaryEntry name run = (name, true, m.size_bytes)) := by
  constructor
  · simp only [diskLoop, h1, h2, hsize]
    simp
  · intro name run m hr
    unfold summaryEntry
    rw [hr]

def fsA2 : FS := [("/backups/vm1/20240102_000000/a.vmdk", 100)]

/-- C2 witness: the two-disk scenario of the counterexample, fed
through the amended theorem. -/
theorem claim2_witness :
    (backupDisk env2 [] ("/backups/vm1/20240102_000000") false diskA =
      .ok (fsA2, some ("/backups/vm1/20240102_000000/a.vmdk"))) ∧
    fsGet fsA2 ("/backups/vm1/20240102_000000/a.vmdk") = some 100 ∧
    (backupDisk env2 fsA2 ("/backups/vm1/20240102_000000") false diskB =
      .ok (fsA2, none)) ∧
    diskLoop env2 ("/backups/vm1/20240102_000000") false [] [diskA, diskB] =
      .ok (fsA2, [("/vmfs/volumes/d1/vm1/a.vmdk", "/backups/vm1/20240102_000000/a.vmdk")], 100) ∧
    summaryEntry ("vm1") run2 = ("vm1", true, 100) :=
  ⟨by decide, by decide, by decide,
   (claim2_theorem env2 ("/backups/vm1/20240102_000000") false [] fsA2 fsA2
     diskA diskB ("/backups/vm1/20240102_000000/a.vmdk") 100
     (by decide) (by decide) (by decide)).1,
   (claim2_theorem env2 ("/backups/vm1/20240102_000000") false [] fsA2 fsA2
     diskA diskB ("/backups/vm1/20240102_000000/a.vmdk") 100
     (by decide) (by decide) (by decide)).2 ("vm1") run2
     ⟨"20240102_000000", "vm1", "/vmfs/volumes/d1/vm1/vm1.vmx",
      [("/vmfs/volumes/d1/vm1/a.vmdk", "/backups/vm1/20240102_000000/a.vmdk")],
      false, "cid", "", 100⟩ (by decide)⟩

def env6 : BackupEnv :=
  { createOk := true, removeOk := true, getDisks := .ok [],
    remoteExists := fun _ => false, download := fun _ _ => .ok (some 0),
    rmTemp := fun _ => .ok (), vmxDownload := .ok 1, changeId := "cid",
    writeMeta := .ok () }

/-- C6, counterexample: the transfer leaves an EMPTY destination file
(size 0 bytes).  `_backup_disk` still reports the copy successful
(returns the local path), because line 525 checks only
`local_path.exists()` — non-emptiness is never checked, contradicting
the claimed "exists and is non-empty" acceptance condition. -/
theorem claim6_counterexample :
    backupDisk env6 [] ("dst") false ⟨"/vmfs/volumes/d1/vm1/a.vmdk"⟩ =
      .ok ([("dst/a.vmdk", 0)], some ("dst/a.vmdk")) ∧
    fsGet [("dst/a.vmdk", 0)] ("dst/a.vmdk") = some 0 :=
  ⟨by decide, by decide⟩

/-- C6, amended: a disk copy is reported successful if and only if the
destination artifact EXISTS after the transfer — an existing but empty
destination still counts as success; only a missing destination is
treated as failure. -/
theorem claim6_theorem (env : BackupEnv) (fs : FS) (dir : String)
    (incremental : Bool) (disk : DiskInfo) (fs1 : FS) (res : Option String)
    (h : backupDisk env fs dir incremental disk = .ok (fs1, res)) :
    (res = some (dir ++ "/" ++ basename disk.path) ↔
      (fsGet fs1 (dir ++ "/" ++ basename disk.path)).isSome = true) ∧
    (res = none ↔ fsGet fs1 (dir ++ "/" ++ basename disk.path) = none) := by
  unfold backupDisk at h
  cases ht : backupDiskTransfer env fs dir incremental disk with
  | exn => rw [ht] at h; exact Exc.noConfusion h
  | ok f =>
    rw [ht] at h
    simp only at h
    injection h with hpair
    injection hpair with h1 h2
    subst h1
    subst h2
    cases hex : fsGet f (dir ++ "/" ++ basename disk.path) with
    | none => simp [hex]
    | some v => simp [hex]

/-- C6 witness: the amended acceptance condition at the concrete input
of the counterexample. -/
theorem claim6_witness :
    (backupDisk env6 [] ("dst") false ⟨"/vmfs/volumes/d1/vm1/a.vmdk"⟩ =
      .ok ([("dst/a.vmdk", 0)], some ("dst/a.vmdk"))) ∧
    ((some ("dst/a.vmdk") : Option String) =
        some ("dst" ++ "/" ++ basename ("/vmfs/volumes/d1/vm1/a.vmdk")) ↔
      (fsGet [("dst/a.vmdk", 0)]
        ("dst" ++ "/" ++ basename ("/vmfs/volumes/d1/vm1/a.vmdk"))).isSome = true) :=
  ⟨by decide,
   (claim6_theorem env6 [] ("dst") false ⟨"/vmfs/volumes/d1/vm1/a.vmdk"⟩
     [("dst/a.vmdk", 0)] (some ("dst/a.vmdk")) (by decide)).1⟩

/-! ## Claim about snapshot removal -/

theorem findSnapshotId_none_iff (snapshotName : String) :
    ∀ lines : List (List Char),
      (∀ l ∈ lines, isSnapshotIdLine l = true →
        listInfix (nameMarker snapshotName) l = false) →
      (findSnapshotId snapshotName lines = none ↔
        ∀ l ∈ lines, isSnapshotIdLine l = false) := by
  intro lines
  induction lines with
  | nil =>
    intro h
    simp [findSnapshotId]
  | cons l ls ih =>
    intro h
    have hls := ih (fun g hg hid => h g (by simp [hg]) hid)
    unfold findSnapshotId
    by_cases hn : listInfix (nameMarker snapshotName) l = true
    · rw [if_pos hn]
      have hnotid : isSnapshotIdLine l = false := by
        cases hcase : isSnapshotIdLine l
        · rfl
        · rw [h l (by simp) hcase] at hn
          exact absurd hn (by simp)
      rw [hls]
      constructor
      · intro hall g hg
        rcases List.mem_cons.mp hg with rfl | hg'
        · exact hnotid
        · exact hall g hg'
      · intro hall g hg
        exact hall g (by simp [hg])
    · rw [if_neg hn]
      by_cases hid : listInfix idMarker l = true
      · rw [if_pos hid]
        cases hs : searchColonDigits l with
        | some d =>
          constructor
          · intro habs
            exact Option.noConfusion habs
          · intro hall
            have hl := hall l (by simp)
            rw [isSnapshotIdLine, hid, hs] at hl
            exact absurd hl (by simp)
        | none =>
          have hnotid : isSnapshotIdLine l = false := by
            rw [isSnapshotIdLine, hs]
            simp
          rw [hls]
          constructor
          · intro hall g hg
            rcases List.mem_cons.mp hg with rfl | hg'
            · exact hnotid
            · exact hall g hg'
          · intro hall g hg
            exact hall g (by simp [hg])
      · rw [if_neg hid]
        have hb : listInfix idMarker l = false := by
          cases hcase : listInfix idMarker l
          · rfl
          · exact absurd hcase hid
        have hnotid : isSnapshotIdLine l = false := by
          rw [isSnapshotIdLine, hb]
          simp
        rw [hls]
        constructor
        · intro hall g hg
          rcases List.mem_cons.mp hg with rfl | hg'
          · exact hnotid
          · exact hall g hg'
        · intro hall g hg
          exact hall g (by simp [hg])

theorem findSnapshotId_first (snapshotName : String) :
    ∀ (pre : List (List Char)) (l : List Char) (rest : List (List Char))
      (d : List Char),
      (∀ g ∈ pre ++ l :: rest, isSnapshotIdLine g = true →
        listInfix (nameMarker snapshotName) g = false) →
      (∀ p ∈ pre, isSnapshotIdLine p = false) →
      listInfix idMarker l = true → searchColonDigits l = some d →
      findSnapshotId snapshotName (pre ++ l :: rest) = some d := by
  intro pre
  induction pre with
  | nil =>
    intro l rest d hclash hpre hid hs
    have hidline : isSnapshotIdLine l = true := by
      rw [isSnapshotIdLine, hid, hs]
      rfl
    have hn : listInfix (nameMarker snapshotName) l = false :=
      hclash l (by simp) hidline
    rw [List.nil_append]
    unfold findSnapshotId
    rw [hn]
    simp only [Bool.false_eq_true, if_false]
    rw [if_pos hid, hs]
  | cons p ps ih =>
    intro l rest d hclash hpre hid hs
    have hp : isSnapshotIdLine p = false := hpre p (by simp)
    have hstep := ih l rest d (fun g hg => hclash g (by simp [hg]))
      (fun q hq => hpre q (by simp [hq])) hid hs
    rw [List.cons_append]
    unfold findSnapshotId
    by_cases hn : listInfix (nameMarker snapshotName) p = true
    · rw [if_pos hn]
      exact hstep
    · rw [if_neg hn]
      by_cases hpid : listInfix idMarker p = true
      · rw [if_pos hpid]
        have hps : searchColonDigits p = none := by
          cases hcase : searchColonDigits p with
          | none => rfl
          | some e =>
            rw [isSnapshotIdLine, hpid, hcase] at hp
            exact absurd hp (by simp)
        rw [hps]
        exact hstep
      · rw [if_neg hpid]
        exact hstep

/-- C10: `remove_snapshot` never uses the requested snapshot name to
select the id it removes (the name line is only skipped): whenever a
line of the listing carries a parsable `--Snapshot Id`, the id removed
is the one on the FIRST such line, and the remove-all-snapshots
fallback is taken exactly when no line of the listing carries a
parsable snapshot id.  The hypothesis states that lines carrying an id
are not also the line naming the requested snapshot, which is how
`vim-cmd` prints listings (one field per line). -/
theorem claim10_theorem (snapshotName : String) (lines : List (List Char))
    (hclash : ∀ l ∈ lines, isSnapshotIdLine l = true →
      listInfix (nameMarker snapshotName) l = false) :
    ((removeSnapshotAction snapshotName lines = .removeAll) ↔
      (∀ l ∈ lines, isSnapshotIdLine l = false)) ∧
    (∀ (pre : List (List Char)) (l : List Char) (rest : List (List Char))
        (d : List Char),
      lines = pre ++ l :: rest → (∀ p ∈ pre, isSnapshotIdLine p = false) →
      listInfix idMarker l = true → searchColonDigits l = some d →
      removeSnapshotAction snapshotName lines = .removeId d) := by
  constructor
  · constructor
    · intro hra
      apply (findSnapshotId_none_iff snapshotName lines hclash).mp
      cases hf : findSnapshotId snapshotName lines with
      | none => rfl
      | some d =>
        unfold removeSnapshotAction at hra
        rw [hf] at hra
        exact SnapshotRemoval.noConfusion hra
    · intro hall
      have hf := (findSnapshotId_none_iff snapshotName lines hclash).mpr hall
      unfold removeSnapshotAction
      rw [hf]
  · intro pre l rest d hsplit hpre hid hs
    subst hsplit
    unfold removeSnapshotAction
    rw [findSnapshotId_first snapshotName pre l rest d hclash hpre hid hs]

def c10lines : List (List Char) :=
  ["|-ROOT".data,
   "--Snapshot Name   : backup_20240101_000000".data,
   "--Snapshot Id        : 42".data,
   "--Snapshot Desciption : Backup snapshot".data,
   "--Snapshot Id        : 43".data]

/-- C10 witness: a realistic listing with two snapshots; the first id
(42) is removed even though the requested name labels that snapshot's
name line. -/
theorem claim10_witness :
    (∀ l ∈ c10lines, isSnapshotIdLine l = true →
      listInfix (nameMarker ("backup_20240101_000000")) l = false) ∧
    removeSnapshotAction ("backup_20240101_000000") c10lines =
      .removeId ("42".data) :=
  ⟨by decide,
   (claim10_theorem ("backup_20240101_000000") c10lines (by decide)).2
     ["|-ROOT".data, "--Snapshot Name   : backup_20240101_000000".data]
     ("--Snapshot Id        : 42".data)
     ["--Snapshot Desciption : Backup snapshot".data,
      "--Snapshot Id        : 43".data]
     ("42".data) (by decide) (by decide) (by decide) (by decide)⟩
